import Mathlib

/-!
Shallow embedding of `PlastomeRegionBurstAndAlign.py`: region extraction
(cds / igs / int), the filter pipeline over ordered dictionaries of sequence
records, the alignment orchestration, and the concatenation bookkeeping.
External library calls (Biopython extraction/translation, MAFFT, the
back-translation helper, format conversion) are modelled as explicit function
parameters, so every embedded function is executable and total except where
the Python raises.
-/

namespace Plastome

/-- One Biopython `SeqRecord` as used by the script: an identifier
(`<region>_<genome-name>`) and a plain sequence string. -/
structure SeqRec where
  id : String
  seq : String
deriving DecidableEq, Repr

/-- An `OrderedDict[str, list[SeqRecord]]`, kept as an insertion-ordered
association list with unique keys. -/
abbrev ODict := List (String × List SeqRec)

/-- Membership test `k in d.keys()`. -/
def odictMem (d : ODict) (k : String) : Bool :=
  d.any (fun p => p.1 == k)

/-- The key list `d.keys()` in insertion order. -/
def odictKeys (d : ODict) : List String :=
  d.map (fun p => p.1)

/-- Lookup `d[k]`, returning `[]` for a missing key. -/
def odictGet (d : ODict) (k : String) : List SeqRec :=
  ((d.find? (fun p => p.1 == k)).map (fun p => p.2)).getD []

/-- The append pattern used throughout the script:
`d[k].append(r)` when `k` is already a key, `d[k] = [r]` otherwise. -/
def odictAppend : ODict → String → SeqRec → ODict
  | [], k, r => [(k, [r])]
  | (k', v) :: rest, k, r =>
    if k' == k then (k', v ++ [r]) :: rest
    else (k', v) :: odictAppend rest k r

/-- Deletion `del d[k]` (removes the unique entry for `k`, if present). -/
def odictDel : ODict → String → ODict
  | [], _ => []
  | (k', v) :: rest, k =>
    if k' == k then rest else (k', v) :: odictDel rest k

/-- Total number of sequence records stored in the dictionary. -/
def fragCount (d : ODict) : Nat :=
  (d.map (fun p => p.2.length)).sum

/-- A Biopython `FeatureLocation` with exact integer positions.
The constructor `FeatureLocation(a, b)` raises when `a > b`; that failure
condition is modelled where the constructor is invoked. -/
structure FeatureLocation where
  start : Int
  stop : Int
deriving DecidableEq, Repr

/-- A feature location: either a single contiguous interval or a compound
(multi-part) location denoting a spliced feature. -/
inductive Location where
  | simple (loc : FeatureLocation)
  | compound (ps : List FeatureLocation)
deriving DecidableEq, Repr

/-- `feature.location.parts`: a simple location is its own single part. -/
def Location.parts : Location → List FeatureLocation
  | .simple l => [l]
  | .compound ps => ps

/-- One annotated feature of a genome record: a type tag, its qualifier
mapping, and a location. -/
structure Feature where
  ftype : String
  qualifiers : List (String × List String)
  location : Location
deriving DecidableEq, Repr

/-- `feature.qualifiers["gene"][0]`, or `none` when the qualifier is missing
or empty (the `KeyError` / `IndexError` paths of the script). -/
def getGene (f : Feature) : Option String :=
  match f.qualifiers.find? (fun p => p.1 == "gene") with
  | some (_, g :: _) => some g
  | _ => none

/-- One genome record produced by the external GenBank reader. -/
structure GenomeRecord where
  name : String
  id : String
  features : List Feature
deriving DecidableEq, Repr

/-- Gene-name sanitisation: `name.replace("-", "_")` followed by
`re.sub(r"\W", "", name)` (drop everything outside `[A-Za-z0-9_]`). -/
def sanitize (s : String) : String :=
  String.mk (((s.toList.map (fun c => if c == '-' then '_' else c)).filter
    (fun c => c.isAlphanum || c == '_')))

/-! ## The coding-sequence extractor (`ExtractAndCollect.extract_cds`)

`feature.extract(rec).seq` and `.translate(table=11)` are external Biopython
calls, passed in as function parameters `exS` and `tr`. -/

/-- Loop body of `extract_cds` for one feature: append the nucleotide
fragment under the gene name, then append the translated fragment to the
protein dictionary only when the translated length reaches
`min_seq_length`. -/
def extract_cds_step (exS : Feature → GenomeRecord → String) (tr : String → String)
    (rec : GenomeRecord) (min_seq_length : Nat) (st : ODict × ODict) (f : Feature) :
    ODict × ODict :=
  if f.ftype == "CDS" then
    match getGene f with
    | some gene_name =>
      let seq_name := gene_name ++ "_" ++ rec.name
      let nucl_seq := exS f rec
      let d_nucl := odictAppend st.1 gene_name ⟨seq_name, nucl_seq⟩
      let prot_seq := tr nucl_seq
      if min_seq_length ≤ prot_seq.length then
        (d_nucl, odictAppend st.2 gene_name ⟨seq_name, prot_seq⟩)
      else
        (d_nucl, st.2)
    | none => st
  else st

/-- `ExtractAndCollect.extract_cds`: fold the per-feature step over the
record's feature list, threading the nucleotide and protein dictionaries. -/
def extract_cds (exS : Feature → GenomeRecord → String) (tr : String → String)
    (d_nucl d_prot : ODict) (rec : GenomeRecord) (min_seq_length : Nat) :
    ODict × ODict :=
  rec.features.foldl (extract_cds_step exS tr rec min_seq_length) (d_nucl, d_prot)

/-! ## The intergenic-spacer extractor (`ExtractAndCollect.extract_igs`)

`exact_location.extract(rec).seq` is modelled by the parameter
`exIv : start → end → record → sequence`. -/

/-- Loop body of `extract_igs` for one adjacent gene pair `(cur, adj)`:
skip compound locations, skip when `cur.location.end >= adj.location.start`,
otherwise extract the spacer, apply the minimum-length filter, and insert it
under the forward key unless the forward/reverse key logic suppresses it. -/
def extract_igs_step (exIv : Int → Int → GenomeRecord → String) (rec : GenomeRecord)
    (min_seq_length : Nat) (d : ODict) (cur adj : Feature) : ODict :=
  match getGene cur, getGene adj with
  | some cur_name, some adj_name =>
    let igs_name := sanitize cur_name ++ "_" ++ sanitize adj_name
    let inv_igs_name := sanitize adj_name ++ "_" ++ sanitize cur_name
    match cur.location, adj.location with
    | .simple cl, .simple al =>
      if al.start ≤ cl.stop then d
      else
        let seq_obj := exIv cl.stop al.start rec
        let seq_rec : SeqRec := ⟨igs_name ++ "_" ++ rec.name, seq_obj⟩
        if min_seq_length ≤ seq_obj.length then
          if odictMem d igs_name || odictMem d inv_igs_name then
            if odictMem d igs_name then odictAppend d igs_name seq_rec
            else d
          else odictAppend d igs_name seq_rec
        else d
    | _, _ => d
  | _, _ => d

/-- The adjacent pairs `(l[i], l[i+1])` walked by the `extract_igs` loop. -/
def adjacentPairs : List Feature → List (Feature × Feature)
  | [] => []
  | [_] => []
  | a :: b :: rest => (a, b) :: adjacentPairs (b :: rest)

/-- `ExtractAndCollect.extract_igs`: filter the record's features to genes
bearing a gene-name qualifier, drop `matK`, then fold the pair step over all
adjacent pairs of the filtered list. -/
def extract_igs (exIv : Int → Int → GenomeRecord → String) (d : ODict)
    (rec : GenomeRecord) (min_seq_length : Nat) : ODict :=
  let all_genes := rec.features.filter
    (fun f => f.ftype == "gene" && (f.qualifiers.any (fun p => p.1 == "gene")))
  let all_genes_minus_matk := all_genes.filter (fun f => getGene f != some "matK")
  (adjacentPairs all_genes_minus_matk).foldl
    (fun d p => extract_igs_step exIv rec min_seq_length d p.1 p.2) d

/-! ## The intron extractor (`extract_intron_internal` / `extract_int`)

The actual subsequence extraction `feature.extract(rec).seq` is the external
call `exL : FeatureLocation → GenomeRecord → Except String String`; it may
fail.  `extract_intron_internal` first overwrites `feature.location` (the
`FeatureLocation(a, b)` constructor raises when `a > b`, whence the reversed
fallback), so the feature comes back mutated even when extraction fails. -/

/-- The simple location `extract_intron_internal` assigns between parts
`offset` and `offset + 1`: `(parts[offset].end, parts[offset+1].start)`, or
the reversed pair when that constructor call fails (`start > end`). -/
def intronLoc (f : Feature) (offset : Nat) : FeatureLocation :=
  let p0 := f.location.parts.getD offset ⟨0, 0⟩
  let p1 := f.location.parts.getD (offset + 1) ⟨0, 0⟩
  if p0.stop ≤ p1.start then ⟨p0.stop, p1.start⟩ else ⟨p1.start, p0.stop⟩

/-- `extract_intron_internal`: returns the extraction result (a fragment and
its region name, or the re-raised failure) together with the mutated
feature. -/
def extract_intron_internal (exL : FeatureLocation → GenomeRecord → Except String String)
    (rec : GenomeRecord) (f : Feature) (gene_name : String) (offset : Nat) :
    Except Unit (SeqRec × String) × Feature :=
  let newLoc := intronLoc f offset
  let f' := { f with location := .simple newLoc }
  match exL newLoc rec with
  | .ok s => (.ok (⟨gene_name ++ "_" ++ rec.name, s⟩, gene_name), f')
  | .error _ => (.error (), f')

/-- Loop body of `extract_int` for one feature.  A failed first intron of a
two-part feature is logged and skipped; a failed first intron of a
three-part feature is re-raised (`raise Exception()`), which is the `.error`
result; a failed second intron is logged and skipped.  The feature value the
record keeps is returned alongside the two dictionaries. -/
def extract_int_step (exL : FeatureLocation → GenomeRecord → Except String String)
    (rec : GenomeRecord) (d_nucl d_int2 : ODict) (f : Feature) :
    Except Unit (ODict × ODict × Feature) :=
  if f.ftype == "CDS" || f.ftype == "tRNA" then
    match getGene f with
    | none => .ok (d_nucl, d_int2, f)
    | some gene_name_base =>
      let safe := sanitize gene_name_base
      let (d1a, fa) :=
        if f.location.parts.length == 2 then
          match extract_intron_internal exL rec f (safe ++ "_intron1") 0 with
          | (.ok (sr, gn), f') => (odictAppend d_nucl gn sr, f')
          | (.error _, f') => (d_nucl, f')
        else (d_nucl, f)
      if fa.location.parts.length == 3 then
        match extract_intron_internal exL rec fa (safe ++ "_intron1") 0 with
        | (.error _, _) => .error ()
        | (.ok (sr, gn), f1) =>
          let d1b := odictAppend d1a gn sr
          match extract_intron_internal exL rec fa (safe ++ "_intron2") 1 with
          | (.ok (sr2, gn2), _) => .ok (d1b, odictAppend d_int2 gn2 sr2, f1)
          | (.error _, _) => .ok (d1b, d_int2, f1)
      else .ok (d1a, d_int2, fa)
  else .ok (d_nucl, d_int2, f)

/-- Fold of `extract_int_step` over a feature list, collecting the feature
values the record ends up holding. -/
def extract_int_go (exL : FeatureLocation → GenomeRecord → Except String String)
    (rec : GenomeRecord) : ODict → ODict → List Feature →
    Except Unit (ODict × ODict × List Feature)
  | d1, d2, [] => .ok (d1, d2, [])
  | d1, d2, f :: fs =>
    match extract_int_step exL rec d1 d2 f with
    | .error e => .error e
    | .ok (d1', d2', f') =>
      match extract_int_go exL rec d1' d2' fs with
      | .error e => .error e
      | .ok (a, b, rest) => .ok (a, b, f' :: rest)

/-- `ExtractAndCollect.extract_int`: the whole-record pass.  Returns the
updated nucleotide and second-intron dictionaries together with the record
as it stands afterwards (its features may have been mutated in place). -/
def extract_int (exL : FeatureLocation → GenomeRecord → Except String String)
    (d_nucl d_int2 : ODict) (rec : GenomeRecord) :
    Except Unit (ODict × ODict × GenomeRecord) :=
  match extract_int_go exL rec d_nucl d_int2 rec.features with
  | .error e => .error e
  | .ok (d1, d2, fs) => .ok (d1, d2, { rec with features := fs })

/-! ## Deduplication (`remove_duplicates`) -/

/-- Inner loop of `remove_duplicates` over one fragment list: `seen_ids` is
the set of identifiers already kept; later records with a seen identifier
are dropped. -/
def removeDupsGo : List String → List SeqRec → List SeqRec
  | _, [] => []
  | seen, r :: rs =>
    if r.id ∈ seen then removeDupsGo seen rs
    else r :: removeDupsGo (r.id :: seen) rs

/-- `remove_duplicates`: per-key in-place replacement of every fragment list
by its first-occurrence-per-identifier sublist. -/
def remove_duplicates (d : ODict) : ODict :=
  d.map (fun p => (p.1, removeDupsGo [] p.2))

/-! ## Taxon-count filter and ORF filter

Python exceptions are modelled explicitly: `remove_annos_if_below_minnumtaxa`
deletes keys from the dictionary **while iterating over it**, so the dict
iterator's size check raises `RuntimeError` at the `next()` call that follows
any deletion; `del main_odict_prot[k]` raises `KeyError` when `k` is not a
key of the protein dictionary.  `if main_odict_prot:` is Python truthiness:
false for `None` and for an empty dictionary. -/

/-- The two unhandled exceptions the filter stage can raise. -/
inductive PyErr where
  | runtimeError
  | keyError
deriving DecidableEq, Repr

/-- Iteration of `remove_annos_if_below_minnumtaxa` over the item sequence:
`mutated` records whether a deletion has happened, in which case the next
iterator step raises `RuntimeError` — unless the iterator is already
exhausted, because the `OrderedDict` iterator checks exhaustion before its
mutation check, so deleting the final yielded key never raises. -/
def remove_annos_go (min_num_taxa : Nat) :
    List (String × List SeqRec) → Bool → ODict → Option ODict →
    Except PyErr (ODict × Option ODict)
  | [], _, d, p => .ok (d, p)
  | (k, v) :: rest, mutated, d, p =>
    if mutated then .error .runtimeError
    else if v.length < min_num_taxa then
      let d' := odictDel d k
      match p with
      | some pd =>
        if pd.isEmpty then remove_annos_go min_num_taxa rest true d' (some pd)
        else if odictMem pd k then
          remove_annos_go min_num_taxa rest true d' (some (odictDel pd k))
        else .error .keyError
      | none => remove_annos_go min_num_taxa rest true d' none
    else remove_annos_go min_num_taxa rest mutated d p

/-- `remove_annos_if_below_minnumtaxa`: iterate over the nucleotide
dictionary's items and delete every key whose fragment list is shorter than
`min_num_taxa`, mirroring the `del`-during-iteration and protein-deletion
behaviour of the source. -/
def remove_annos_if_below_minnumtaxa (d_nucl : ODict) (d_prot : Option ODict)
    (min_num_taxa : Nat) : Except PyErr (ODict × Option ODict) :=
  remove_annos_go min_num_taxa d_nucl false d_nucl d_prot

/-- Substring helper for Python's `"orf" in k`: does `pat` occur at the head
of `text`? -/
def matchesFrom : List Char → List Char → Bool
  | [], _ => true
  | _ :: _, [] => false
  | p :: ps, c :: cs => p == c && matchesFrom ps cs

/-- Python's substring containment `pat in s`. -/
def strContains (s pat : String) : Bool :=
  s.toList.tails.any (fun t => matchesFrom pat.toList t)

/-- Loop of `remove_orfs` over the pre-computed orf key list: deletion from
the nucleotide dictionary always succeeds; deletion from a non-empty protein
dictionary raises `KeyError` when the key is absent there. -/
def remove_orfs_go : List String → ODict → Option ODict →
    Except PyErr (ODict × Option ODict)
  | [], d, p => .ok (d, p)
  | o :: rest, d, p =>
    let d' := odictDel d o
    match p with
    | some pd =>
      if pd.isEmpty then remove_orfs_go rest d' (some pd)
      else if odictMem pd o then remove_orfs_go rest d' (some (odictDel pd o))
      else .error .keyError
    | none => remove_orfs_go rest d' none

/-- `remove_orfs`: collect every key containing `"orf"` into a snapshot
list, then delete each from the nucleotide dictionary and (unconditionally,
when it is truthy) from the protein dictionary. -/
def remove_orfs (d_nucl : ODict) (d_prot : Option ODict) :
    Except PyErr (ODict × Option ODict) :=
  let list_of_orfs := (odictKeys d_nucl).filter (fun k => strContains k "orf")
  remove_orfs_go list_of_orfs d_nucl d_prot

/-! ## Alignment orchestration

The external MAFFT invocation and the back-translation subprocess are the
parameters `mafft` and `backTr`, keyed by region name (the file names the
script derives are injective in the region name). -/

/-- Loop of `multiple_sequence_alignment_nucleotide` over the region keys:
`mafft_align` is called bare, so its first failure propagates; the error
value carries the regions aligned before the failure.  On success the
aligned region list is returned. -/
def msaNuclGo (mafft : String → Except String Unit) :
    List String → Except (String × List String) (List String)
  | [] => .ok []
  | k :: rest =>
    match mafft k with
    | .error e => .error (e, [])
    | .ok _ =>
      match msaNuclGo mafft rest with
      | .ok l => .ok (k :: l)
      | .error (e, pre) => .error (e, k :: pre)

/-- `multiple_sequence_alignment_nucleotide`: raises on an empty dictionary,
otherwise aligns each region in key order with no per-region handler. -/
def multiple_sequence_alignment_nucleotide (mafft : String → Except String Unit)
    (d_nucl : ODict) : Except (String × List String) (List String) :=
  if d_nucl.isEmpty then
    .error ("No items in nucleotide main dictionary to process", [])
  else msaNuclGo mafft (odictKeys d_nucl)

/-- `process_protein_alignment` for one region: a MAFFT failure propagates
out of the job; a back-translation failure (`CalledProcessError`) is caught
and logged, leaving the job successful but without an aligned nucleotide
file.  The boolean says whether the aligned nucleotide file was produced. -/
def process_protein_alignment (mafft backTr : String → Except String Unit)
    (k : String) : Except String Bool :=
  match mafft k with
  | .error e => .error e
  | .ok _ =>
    match backTr k with
    | .error _ => .ok false
    | .ok _ => .ok true

/-- `conduct_protein_alignment_and_back_translation`: fatal when the helper
script is missing; otherwise every job's exception is caught in the
`as_completed` loop and logged, so the call always completes and yields the
regions for which an aligned nucleotide file exists. -/
def conduct_protein_alignment_and_back_translation (helperFound : Bool)
    (mafft backTr : String → Except String Unit) (d_prot : ODict) :
    Except String (List String) :=
  if helperFound then
    .ok (d_prot.filterMap (fun p =>
      match process_protein_alignment mafft backTr p.1 with
      | .ok true => some p.1
      | .ok false => none
      | .error _ => none))
  else .error "Back-translation helper script not found"

/-! ## Concatenation bookkeeping (`collect_successful_alignments`,
`concatenate_successful_alignments`) -/

/-- `collect_successful_alignments`: for each region key, the FASTA-to-NEXUS
conversion and then the NEXUS re-parse each `continue` on failure; a region
enters the success list exactly when both succeed. -/
def collect_successful_alignments (convert : String → Except String Unit)
    (parseNx : String → Except String String) (d_nucl : ODict) :
    List (String × String) :=
  (odictKeys d_nucl).filterMap (fun k =>
    match convert k with
    | .error _ => none
    | .ok _ =>
      match parseNx k with
      | .error _ => none
      | .ok a => some (k, a))

/-- The two output file names `concatenate_successful_alignments` builds
from `len(success_list)`. -/
def concat_outfile_names (success_list : List (String × String)) :
    String × String :=
  ("nucl_" ++ toString success_list.length ++ "concat.aligned.fasta",
   "nucl_" ++ toString success_list.length ++ "concat.aligned.nexus")

/-! ## The per-file extraction loop (`parse_infiles_and_extract_annos`)

The mode dispatch and the per-file extractor are abstracted into a step
function `step : ODict → α → ODict`; what the loop itself adds is the
emptiness check `if not main_odict_nucl.items(): raise` after **every**
file. -/

/-- The file loop of `parse_infiles_and_extract_annos`: process one file,
then raise if the cumulative nucleotide dictionary is still empty. -/
def parseInfilesGo {α : Type} (step : ODict → α → ODict) :
    ODict → List α → Except Unit ODict
  | d, [] => .ok d
  | d, f :: fs =>
    let d' := step d f
    if d'.isEmpty then .error () else parseInfilesGo step d' fs

/-- `parse_infiles_and_extract_annos`, starting from the fresh empty
`OrderedDict`. -/
def parse_infiles_and_extract_annos {α : Type} (step : ODict → α → ODict)
    (files : List α) : Except Unit ODict :=
  parseInfilesGo step [] files

/-! ## Auxiliary predicates and concrete instances used by the theorems -/

/-- Whether an `Except` computation succeeded. -/
def isOkE {ε α : Type} : Except ε α → Bool
  | .ok _ => true
  | .error _ => false

/-- The exact condition under which `extract_int` re-raises: a CDS/tRNA
feature with a gene-name qualifier, a three-part location, and a failing
first-intron extraction. -/
def abortsOn (exL : FeatureLocation → GenomeRecord → Except String String)
    (rec : GenomeRecord) (f : Feature) : Bool :=
  (f.ftype == "CDS" || f.ftype == "tRNA") && (getGene f).isSome &&
    (f.location.parts.length == 3) && !(isOkE (exL (intronLoc f 0) rec))

/-- The in-place location rewrite `extract_int` performs on a feature it
processes: a CDS/tRNA feature with a gene qualifier and a two- or
three-part location keeps the first computed intron interval as its new,
simple location; every other feature is untouched. -/
def intMutate (f : Feature) : Feature :=
  if (f.ftype == "CDS" || f.ftype == "tRNA") && (getGene f).isSome &&
      (f.location.parts.length == 2 || f.location.parts.length == 3) then
    { f with location := .simple (intronLoc f 0) }
  else f

/-- An external extraction call that always fails (a concrete failure
witness for the intron extractor). -/
def c2exL : FeatureLocation → GenomeRecord → Except String String :=
  fun _ _ => .error "extraction failed"

/-- A CDS feature with a three-part (two-intron) location. -/
def c2feat : Feature :=
  { ftype := "CDS", qualifiers := [("gene", ["clpP"])],
    location := .compound [⟨0, 10⟩, ⟨20, 30⟩, ⟨40, 50⟩] }

/-- A one-feature genome record holding `c2feat`. -/
def c2rec : GenomeRecord := { name := "NC2", id := "NC2", features := [c2feat] }

/-- An external extraction call that always succeeds with `"ACGT"`. -/
def c8exL : FeatureLocation → GenomeRecord → Except String String :=
  fun _ _ => .ok "ACGT"

/-- A tRNA feature with a two-part (one-intron) location. -/
def c8feat : Feature :=
  { ftype := "tRNA", qualifiers := [("gene", ["trnK"])],
    location := .compound [⟨0, 10⟩, ⟨20, 30⟩] }

/-- A one-feature genome record holding `c8feat`. -/
def c8rec : GenomeRecord := { name := "NC8", id := "NC8", features := [c8feat] }

/-- The record `c8rec` as `extract_int` leaves it: the feature's compound
location has been overwritten by the computed intron interval. -/
def c8recAfter : GenomeRecord :=
  { name := "NC8", id := "NC8",
    features := [{ ftype := "tRNA", qualifiers := [("gene", ["trnK"])],
                   location := .simple ⟨10, 20⟩ }] }

/-- A MAFFT stub that fails exactly on region `psbA`. -/
def c3mafft : String → Except String Unit :=
  fun k => if k == "psbA" then .error "mafft failed" else .ok ()

/-- A two-region nucleotide dictionary whose first region makes `c3mafft`
fail. -/
def c3d : ODict :=
  [("psbA", [⟨"psbA_NC3", "AC"⟩]), ("trnH_psbA", [⟨"trnH_psbA_NC3", "GG"⟩])]

/-- A MAFFT stub that fails exactly on region `b`. -/
def c3mafftB : String → Except String Unit :=
  fun k => if k == "b" then .error "e" else .ok ()

/-- An external-call stub that always succeeds. -/
def okCall : String → Except String Unit := fun _ => .ok ()

/-- A back-translation stub that fails exactly on region `rpoC1`. -/
def c3backTr : String → Except String Unit :=
  fun k => if k == "rpoC1" then .error "helper failed" else .ok ()

/-- A two-region protein dictionary used to exercise the protein-mode
orchestrator. -/
def c3dProt : ODict :=
  [("rpoC1", [⟨"rpoC1_NC3", "MK"⟩]), ("rbcL", [⟨"rbcL_NC3", "ML"⟩])]

/-- A nucleotide extraction stub returning a fixed six-base sequence. -/
def c4exS : Feature → GenomeRecord → String := fun _ _ => "ATGAAA"

/-- A translation stub returning a fixed two-residue protein. -/
def c4tr : String → String := fun _ => "MK"

/-- A CDS feature named `rbcL` with a simple location. -/
def c4feat : Feature :=
  { ftype := "CDS", qualifiers := [("gene", ["rbcL"])],
    location := .simple ⟨0, 6⟩ }

/-- A one-feature genome record holding `c4feat`. -/
def c4rec : GenomeRecord := { name := "NC4", id := "NC4", features := [c4feat] }

/-- A spacer extraction stub returning a fixed four-base sequence. -/
def c5exIv : Int → Int → GenomeRecord → String := fun _ _ _ => "ACGT"

/-- A gene feature `trnA` ending at 100. -/
def c5cur : Feature :=
  { ftype := "gene", qualifiers := [("gene", ["trnA"])],
    location := .simple ⟨0, 100⟩ }

/-- A gene feature `trnB` starting at 150. -/
def c5adj : Feature :=
  { ftype := "gene", qualifiers := [("gene", ["trnB"])],
    location := .simple ⟨150, 200⟩ }

/-- A two-gene genome record for the spacer extractor. -/
def c5rec : GenomeRecord := { name := "NC5", id := "NC5", features := [c5cur, c5adj] }

/-- A one-fragment region entry used by the filter-stage witnesses. -/
def w1frag : SeqRec := ⟨"trnL_NC1", "ACGTT"⟩

/-! ## Lemmas about the ordered-dictionary operations -/

theorem odictGet_nil (k : String) : odictGet [] k = [] := rfl

theorem odictGet_cons (k' : String) (v : List SeqRec) (rest : ODict) (k : String) :
    odictGet ((k', v) :: rest) k = if k' == k then v else odictGet rest k := by
  by_cases h : k' == k <;> simp [odictGet, List.find?_cons, h]

theorem odictGet_append_self (d : ODict) (k : String) (r : SeqRec) :
    odictGet (odictAppend d k r) k = odictGet d k ++ [r] := by
  induction d with
  | nil => simp [odictAppend, odictGet_cons, odictGet_nil]
  | cons p rest ih =>
    obtain ⟨k', v⟩ := p
    by_cases h : k' == k
    · simp [odictAppend, h, odictGet_cons]
    · simp [odictAppend, h, odictGet_cons, ih]

theorem odictGet_append_ne (d : ODict) (k : String) (r : SeqRec) (k2 : String)
    (h : k2 ≠ k) : odictGet (odictAppend d k r) k2 = odictGet d k2 := by
  have hk : (k == k2) = false := by simpa using fun he => h he.symm
  induction d with
  | nil => simp [odictAppend, odictGet_cons, odictGet_nil, hk]
  | cons p rest ih =>
    obtain ⟨k', v⟩ := p
    by_cases hkk : k' == k
    · have : (k' == k2) = false := by
        have : k' = k := by simpa using hkk
        simpa [this] using hk
      simp [odictAppend, hkk, odictGet_cons, this]
    · by_cases h2 : k' == k2 <;> simp [odictAppend, hkk, odictGet_cons, h2, ih]

theorem mem_odictGet_append_of_mem (d : ODict) (k2 : String) (r : SeqRec)
    (k : String) (x : SeqRec) (hx : x ∈ odictGet d k) :
    x ∈ odictGet (odictAppend d k2 r) k := by
  by_cases h : k = k2
  · subst h
    rw [odictGet_append_self]
    exact List.mem_append_left _ hx
  · rwa [odictGet_append_ne _ _ _ _ h]

theorem mem_odictGet_append_elim (d : ODict) (k2 : String) (r : SeqRec)
    (k : String) (x : SeqRec) (hx : x ∈ odictGet (odictAppend d k2 r) k) :
    x ∈ odictGet d k ∨ x = r := by
  by_cases h : k = k2
  · subst h
    rw [odictGet_append_self] at hx
    rcases List.mem_append.mp hx with h' | h'
    · exact Or.inl h'
    · exact Or.inr (by simpa using h')
  · rw [odictGet_append_ne _ _ _ _ h] at hx
    exact Or.inl hx

theorem fragCount_append (d : ODict) (k : String) (r : SeqRec) :
    fragCount (odictAppend d k r) = fragCount d + 1 := by
  induction d with
  | nil => simp [odictAppend, fragCount]
  | cons p rest ih =>
    obtain ⟨k', v⟩ := p
    by_cases h : k' == k
    · simp [odictAppend, h, fragCount]
      omega
    · simp [odictAppend, h, fragCount] at ih ⊢
      omega

/-! ## Lemmas about deduplication -/

theorem removeDupsGo_sublist (seen : List String) (l : List SeqRec) :
    (removeDupsGo seen l).Sublist l := by
  induction l generalizing seen with
  | nil => simp [removeDupsGo]
  | cons r rs ih =>
    by_cases h : r.id ∈ seen
    · simp only [removeDupsGo, if_pos h]
      exact (ih seen).cons _
    · simp only [removeDupsGo, if_neg h]
      exact (ih _).cons₂ _

theorem removeDupsGo_filter (seen : List String) (l : List SeqRec) (i : String) :
    (removeDupsGo seen l).filter (fun x => x.id == i) =
      if i ∈ seen then [] else (l.find? (fun x => x.id == i)).toList := by
  induction l generalizing seen with
  | nil => simp [removeDupsGo]
  | cons r rs ih =>
    by_cases hs : r.id ∈ seen
    · simp only [removeDupsGo, if_pos hs]
      rw [ih]
      by_cases hi : i ∈ seen
      · simp [hi]
      · have hri : (r.id == i) = false := by
          simp only [beq_eq_false_iff_ne]
          intro he
          exact hi (he ▸ hs)
        simp [hi, List.find?_cons, hri]
    · simp only [removeDupsGo, if_neg hs]
      by_cases hri : r.id = i
      · have hib : (r.id == i) = true := by simpa using hri
        have hi : i ∉ seen := fun h => hs (hri ▸ h)
        have hic : i ∈ r.id :: seen := by simp [hri]
        rw [List.filter_cons, if_pos hib, ih]
        simp [hic, hi, List.find?_cons, hib]
      · have hrib : (r.id == i) = false := by simpa using hri
        rw [List.filter_cons, if_neg (by simp [hrib]), ih]
        have hmem : (i ∈ r.id :: seen) ↔ (i ∈ seen) := by
          constructor
          · intro h
            rcases List.mem_cons.mp h with h' | h'
            · exact absurd h'.symm hri
            · exact h'
          · exact fun h => List.mem_cons_of_mem _ h
        by_cases hi : i ∈ seen
        · simp [hi, hmem.mpr hi]
        · have hic : i ∉ r.id :: seen := fun h => hi (hmem.mp h)
          simp [hi, hic, List.find?_cons, hrib]

theorem removeDupsGo_idem (l : List SeqRec) (seen : List String) :
    removeDupsGo seen (removeDupsGo seen l) = removeDupsGo seen l := by
  induction l generalizing seen with
  | nil => rfl
  | cons r rs ih =>
    by_cases hs : r.id ∈ seen
    · simp only [removeDupsGo, if_pos hs]
      exact ih seen
    · simp only [removeDupsGo, if_neg hs]
      rw [ih (r.id :: seen)]

theorem odictGet_remove_duplicates (d : ODict) (k : String) :
    odictGet (remove_duplicates d) k = removeDupsGo [] (odictGet d k) := by
  induction d with
  | nil => rfl
  | cons p rest ih =>
    obtain ⟨k', v⟩ := p
    by_cases h : k' == k
    · simp [remove_duplicates, odictGet_cons, h]
    · simp only [remove_duplicates, List.map_cons, odictGet_cons, h,
        Bool.false_eq_true, if_false] at ih ⊢
      simpa [remove_duplicates] using ih

theorem remove_duplicates_idem (d : ODict) :
    remove_duplicates (remove_duplicates d) = remove_duplicates d := by
  induction d with
  | nil => rfl
  | cons p rest ih =>
    simp only [remove_duplicates, List.map_cons, List.map] at ih ⊢
    rw [removeDupsGo_idem]
    exact congrArg _ (by simpa [remove_duplicates] using ih)

/-- C9: for every region collection, deduplication keeps, in each region's
list, exactly the first fragment per unique identifier (the fragments with
identifier `i` that remain are exactly the first one of the original list),
it preserves the original relative order (the result is a sublist), and it
is idempotent. -/
theorem C9_remove_duplicates_first_per_id_sublist_idem (d : ODict) :
    remove_duplicates (remove_duplicates d) = remove_duplicates d ∧
    ∀ k : String,
      (odictGet (remove_duplicates d) k).Sublist (odictGet d k) ∧
      ∀ i : String,
        (odictGet (remove_duplicates d) k).filter (fun x => x.id == i) =
          ((odictGet d k).find? (fun x => x.id == i)).toList := by
  refine ⟨remove_duplicates_idem d, fun k => ⟨?_, fun i => ?_⟩⟩
  · rw [odictGet_remove_duplicates]
    exact removeDupsGo_sublist _ _
  · rw [odictGet_remove_duplicates, removeDupsGo_filter]
    simp

/-! ## The taxon-count filter bug and the protein-collection KeyError -/

/-- C1: evaluation of `remove_annos_if_below_minnumtaxa` at a collection
holding a below-threshold region `trnL` followed by an at-threshold region
`rbcL`, with a minimum taxon count of two: instead of removing `trnL`,
keeping `rbcL`, and returning the filtered collection, the function deletes
`trnL` and then the dictionary iterator raises `RuntimeError` (mutation
during iteration) at the step that would yield `rbcL`, aborting the run.
The second conjunct shows the boundary case: when the sole below-threshold
region is the final entry, the pass completes normally, because the
iterator's exhaustion check precedes its mutation check. -/
theorem C1_remove_annos_raises_runtime_error :
    remove_annos_if_below_minnumtaxa
        [("trnL", [w1frag]),
         ("rbcL", [⟨"rbcL_NC1", "AT"⟩, ⟨"rbcL_NC2", "AT"⟩])] none 2 =
      .error .runtimeError ∧
    remove_annos_if_below_minnumtaxa [("trnL", [w1frag])] none 2 =
      .ok ([], none) := ⟨rfl, rfl⟩

theorem remove_annos_go_keyerror (min_num_taxa : Nat)
    (l : List (String × List SeqRec)) (dcur : ODict) (pd : ODict)
    (hpd : pd ≠ [])
    (hex : ∃ kv ∈ l, kv.2.length < min_num_taxa)
    (hall : ∀ kv ∈ l, kv.2.length < min_num_taxa → odictMem pd kv.1 = false) :
    remove_annos_go min_num_taxa l false dcur (some pd) = .error .keyError := by
  induction l generalizing dcur with
  | nil => simp at hex
  | cons kv rest ih =>
    obtain ⟨k, v⟩ := kv
    by_cases hb : v.length < min_num_taxa
    · have hmem : odictMem pd k = false := hall (k, v) (List.mem_cons_self _ _) hb
      have hne : pd.isEmpty = false := by
        cases pd with
        | nil => exact absurd rfl hpd
        | cons a b => rfl
      simp [remove_annos_go, hb, hne, hmem]
    · have hex' : ∃ kv ∈ rest, kv.2.length < min_num_taxa := by
        rcases hex with ⟨kv', hkv', hlt⟩
        rcases List.mem_cons.mp hkv' with h | h
        · exact absurd (by simpa [h] using hlt) hb
        · exact ⟨kv', h, hlt⟩
      have hall' : ∀ kv ∈ rest, kv.2.length < min_num_taxa → odictMem pd kv.1 = false :=
        fun kv hkv => hall kv (List.mem_cons_of_mem _ hkv)
      simp only [remove_annos_go, if_neg hb, Bool.false_eq_true, if_false]
      exact ih dcur hex' hall'

/-- C10: when the protein collection is non-empty and a key scheduled for
deletion is present in the nucleotide collection but absent from the protein
collection, both the ORF filter and the minimum-taxon filter execute
`del main_odict_prot[k]` unconditionally and raise an unhandled `KeyError`,
aborting the run instead of removing only the nucleotide entry. -/
theorem C10_filters_raise_keyerror_when_prot_key_missing :
    (∀ (d pd : ODict), pd ≠ [] →
      (∃ k ∈ odictKeys d, strContains k "orf" = true) →
      (∀ k ∈ odictKeys d, strContains k "orf" = true → odictMem pd k = false) →
      remove_orfs d (some pd) = .error .keyError) ∧
    (∀ (d pd : ODict) (min_num_taxa : Nat), pd ≠ [] →
      (∃ kv ∈ d, kv.2.length < min_num_taxa) →
      (∀ kv ∈ d, kv.2.length < min_num_taxa → odictMem pd kv.1 = false) →
      remove_annos_if_below_minnumtaxa d (some pd) min_num_taxa =
        .error .keyError) := by
  constructor
  · intro d pd hpd hex hall
    rcases hex with ⟨k, hk, hc⟩
    have hkf : k ∈ (odictKeys d).filter (fun k => strContains k "orf") :=
      List.mem_filter.mpr ⟨hk, hc⟩
    unfold remove_orfs
    cases hf : (odictKeys d).filter (fun k => strContains k "orf") with
    | nil => rw [hf] at hkf; simp at hkf
    | cons o rest =>
      have ho : o ∈ (odictKeys d).filter (fun k => strContains k "orf") := by
        rw [hf]; exact List.mem_cons_self _ _
      have ho' := List.mem_filter.mp ho
      have hmem : odictMem pd o = false := hall o ho'.1 ho'.2
      have hne : pd.isEmpty = false := by
        cases pd with
        | nil => exact absurd rfl hpd
        | cons a b => rfl
      simp [remove_orfs_go, hne, hmem]
  · intro d pd min_num_taxa hpd hex hall
    exact remove_annos_go_keyerror min_num_taxa d d pd hpd hex hall

/-- Witness for C10: a nucleotide collection holding `orf42` (absent from
the non-empty protein collection) makes the ORF filter raise `KeyError`, and
a below-threshold region `trnL` absent from the protein collection makes the
minimum-taxon filter raise `KeyError`. -/
theorem C10_witness :
    remove_orfs [("orf42", [⟨"orf42_NC1", "AT"⟩])]
        (some [("rbcL", [⟨"rbcL_NC1", "MK"⟩])]) = .error .keyError ∧
    remove_annos_if_below_minnumtaxa [("trnL", [w1frag])]
        (some [("rbcL", [⟨"rbcL_NC1", "MK"⟩])]) 2 = .error .keyError := by
  constructor
  · exact C10_filters_raise_keyerror_when_prot_key_missing.1
      [("orf42", [⟨"orf42_NC1", "AT"⟩])] [("rbcL", [⟨"rbcL_NC1", "MK"⟩])]
      (by decide) (by decide) (by decide)
  · exact C10_filters_raise_keyerror_when_prot_key_missing.2
      [("trnL", [w1frag])] [("rbcL", [⟨"rbcL_NC1", "MK"⟩])] 2
      (by decide) (by decide) (by decide)

/-! ## Lemmas about the coding-sequence extractor -/

theorem extract_cds_step_mono (exS : Feature → GenomeRecord → String)
    (tr : String → String) (rec : GenomeRecord) (min_seq_length : Nat)
    (st : ODict × ODict) (f : Feature) (k : String) (x : SeqRec) :
    (x ∈ odictGet st.1 k →
      x ∈ odictGet (extract_cds_step exS tr rec min_seq_length st f).1 k) ∧
    (x ∈ odictGet st.2 k →
      x ∈ odictGet (extract_cds_step exS tr rec min_seq_length st f).2 k) := by
  cases hc : (f.ftype == "CDS") with
  | false => simp [extract_cds_step, hc]
  | true =>
    cases hg : getGene f with
    | none => simp [extract_cds_step, hc, hg]
    | some g =>
      by_cases hl : min_seq_length ≤ (tr (exS f rec)).length
      · simp only [extract_cds_step, hc, hg, if_pos hl, if_true]
        exact ⟨mem_odictGet_append_of_mem _ _ _ _ _,
               mem_odictGet_append_of_mem _ _ _ _ _⟩
      · simp only [extract_cds_step, hc, hg, if_neg hl, if_true]
        exact ⟨mem_odictGet_append_of_mem _ _ _ _ _, id⟩

theorem extract_cds_fold_mono (exS : Feature → GenomeRecord → String)
    (tr : String → String) (rec : GenomeRecord) (min_seq_length : Nat)
    (fs : List Feature) (st : ODict × ODict) (k : String) (x : SeqRec) :
    (x ∈ odictGet st.1 k →
      x ∈ odictGet (fs.foldl (extract_cds_step exS tr rec min_seq_length) st).1 k) ∧
    (x ∈ odictGet st.2 k →
      x ∈ odictGet (fs.foldl (extract_cds_step exS tr rec min_seq_length) st).2 k) := by
  induction fs generalizing st with
  | nil => exact ⟨id, id⟩
  | cons f rest ih =>
    refine ⟨fun hx => ?_, fun hx => ?_⟩
    · exact (ih _).1 ((extract_cds_step_mono exS tr rec min_seq_length st f k x).1 hx)
    · exact (ih _).2 ((extract_cds_step_mono exS tr rec min_seq_length st f k x).2 hx)

theorem extract_cds_step_prot_bound (exS : Feature → GenomeRecord → String)
    (tr : String → String) (rec : GenomeRecord) (min_seq_length : Nat)
    (st : ODict × ODict) (f : Feature) (k : String) (x : SeqRec)
    (hx : x ∈ odictGet (extract_cds_step exS tr rec min_seq_length st f).2 k) :
    x ∈ odictGet st.2 k ∨ min_seq_length ≤ x.seq.length := by
  cases hc : (f.ftype == "CDS") with
  | false => rw [extract_cds_step, hc] at hx; exact Or.inl (by simpa using hx)
  | true =>
    cases hg : getGene f with
    | none => simp only [extract_cds_step, hc, hg] at hx; exact Or.inl hx
    | some g =>
      by_cases hl : min_seq_length ≤ (tr (exS f rec)).length
      · simp only [extract_cds_step, hc, hg, if_pos hl, if_true] at hx
        rcases mem_odictGet_append_elim _ _ _ _ _ hx with h | h
        · exact Or.inl h
        · subst h
          exact Or.inr hl
      · simp only [extract_cds_step, hc, hg, if_neg hl, if_true] at hx
        exact Or.inl hx

theorem extract_cds_fold_prot_bound (exS : Feature → GenomeRecord → String)
    (tr : String → String) (rec : GenomeRecord) (min_seq_length : Nat)
    (fs : List Feature) (st : ODict × ODict) (k : String) (x : SeqRec)
    (hx : x ∈ odictGet (fs.foldl (extract_cds_step exS tr rec min_seq_length) st).2 k) :
    x ∈ odictGet st.2 k ∨ min_seq_length ≤ x.seq.length := by
  induction fs generalizing st with
  | nil => exact Or.inl hx
  | cons f rest ih =>
    rcases ih _ hx with h | h
    · exact extract_cds_step_prot_bound exS tr rec min_seq_length st f k x h
    · exact Or.inr h

/-- C4: for every genome record, every CDS feature carrying a gene-name
qualifier contributes its nucleotide fragment to the nucleotide collection
under the gene name, and contributes the corresponding protein fragment to
the protein collection if and only if the translated sequence's length
reaches the configured minimum sequence length (the nucleotide fragment is
recorded regardless of that test). -/
theorem C4_extract_cds_nucl_always_prot_iff_min
    (exS : Feature → GenomeRecord → String) (tr : String → String)
    (d_nucl d_prot : ODict) (rec : GenomeRecord) (min_seq_length : Nat)
    (f : Feature) (g : String)
    (hf : f ∈ rec.features) (hc : f.ftype = "CDS") (hg : getGene f = some g) :
    (⟨g ++ "_" ++ rec.name, exS f rec⟩ : SeqRec) ∈
      odictGet (extract_cds exS tr d_nucl d_prot rec min_seq_length).1 g ∧
    ((⟨g ++ "_" ++ rec.name, tr (exS f rec)⟩ : SeqRec) ∉ odictGet d_prot g →
      ((⟨g ++ "_" ++ rec.name, tr (exS f rec)⟩ : SeqRec) ∈
          odictGet (extract_cds exS tr d_nucl d_prot rec min_seq_length).2 g ↔
        min_seq_length ≤ (tr (exS f rec)).length)) := by
  obtain ⟨s, t, hst⟩ := List.append_of_mem hf
  have hcb : (f.ftype == "CDS") = true := by simpa using hc
  have hstep1 : ∀ st : ODict × ODict,
      (⟨g ++ "_" ++ rec.name, exS f rec⟩ : SeqRec) ∈
        odictGet (extract_cds_step exS tr rec min_seq_length st f).1 g := by
    intro st
    by_cases hl : min_seq_length ≤ (tr (exS f rec)).length <;>
      simp only [extract_cds_step, hcb, hg, if_pos, if_neg, hl, if_true,
        if_false] <;>
      rw [odictGet_append_self] <;> simp
  have hstep2 : ∀ st : ODict × ODict, min_seq_length ≤ (tr (exS f rec)).length →
      (⟨g ++ "_" ++ rec.name, tr (exS f rec)⟩ : SeqRec) ∈
        odictGet (extract_cds_step exS tr rec min_seq_length st f).2 g := by
    intro st hl
    simp only [extract_cds_step, hcb, hg, if_pos hl, if_true]
    rw [odictGet_append_self]
    simp
  constructor
  · rw [extract_cds, hst, List.foldl_append, List.foldl_cons]
    exact (extract_cds_fold_mono exS tr rec min_seq_length t _ g _).1 (hstep1 _)
  · intro hnot
    constructor
    · intro hmem
      rcases extract_cds_fold_prot_bound exS tr rec min_seq_length rec.features
          (d_nucl, d_prot) g _ hmem with h | h
      · exact absurd h hnot
      · exact h
    · intro hl
      rw [extract_cds, hst, List.foldl_append, List.foldl_cons]
      exact (extract_cds_fold_mono exS tr rec min_seq_length t _ g _).2 (hstep2 _ hl)

/-- Witness for C4: a single CDS feature named `rbcL` yields the nucleotide
fragment unconditionally and the protein fragment exactly when the minimum
length 1 is met by the two-residue translation. -/
theorem C4_witness :
    (⟨"rbcL_NC4", "ATGAAA"⟩ : SeqRec) ∈
      odictGet (extract_cds c4exS c4tr [] [] c4rec 1).1 "rbcL" ∧
    ((⟨"rbcL_NC4", "MK"⟩ : SeqRec) ∈
        odictGet (extract_cds c4exS c4tr [] [] c4rec 1).2 "rbcL" ↔
      1 ≤ ("MK" : String).length) := by
  have h := C4_extract_cds_nucl_always_prot_iff_min c4exS c4tr [] [] c4rec 1
    c4feat "rbcL" (by simp [c4rec]) rfl rfl
  refine ⟨by simpa using h.1, ?_⟩
  have h2 := h.2 (by simp [odictGet_nil])
  simpa using h2

/-! ## The spacer extractor's per-pair behaviour -/

/-- C5: for an adjacent gene pair with single (non-compound) locations, as
walked by `extract_igs`: (1) if the current feature's end is at or beyond
the next feature's start, no fragment is produced; (2) if the gap is valid,
the extracted sequence meets the minimum length, and the reverse key is not
yet in the collection, exactly one fragment is added, under the forward key;
(3) if only the reverse key is present, no fragment is added under a new
key; (4) if both keys are present, exactly one fragment is added under the
forward key and the reverse key's list is untouched, so a fragment is never
stored under both keys. -/
theorem C5_extract_igs_step_one_fragment_per_pair
    (exIv : Int → Int → GenomeRecord → String) (rec : GenomeRecord)
    (min_seq_length : Nat) (d : ODict) (cur adj : Feature)
    (cl al : FeatureLocation) (cn an : String)
    (hcl : cur.location = .simple cl) (hal : adj.location = .simple al)
    (hcn : getGene cur = some cn) (han : getGene adj = some an)
    (hne : sanitize cn ++ "_" ++ sanitize an ≠ sanitize an ++ "_" ++ sanitize cn) :
    (al.start ≤ cl.stop →
      extract_igs_step exIv rec min_seq_length d cur adj = d) ∧
    (cl.stop < al.start → min_seq_length ≤ (exIv cl.stop al.start rec).length →
      odictMem d (sanitize an ++ "_" ++ sanitize cn) = false →
      fragCount (extract_igs_step exIv rec min_seq_length d cur adj) =
          fragCount d + 1 ∧
        (⟨(sanitize cn ++ "_" ++ sanitize an) ++ "_" ++ rec.name,
            exIv cl.stop al.start rec⟩ : SeqRec) ∈
          odictGet (extract_igs_step exIv rec min_seq_length d cur adj)
            (sanitize cn ++ "_" ++ sanitize an)) ∧
    (cl.stop < al.start → min_seq_length ≤ (exIv cl.stop al.start rec).length →
      odictMem d (sanitize an ++ "_" ++ sanitize cn) = true →
      odictMem d (sanitize cn ++ "_" ++ sanitize an) = false →
      extract_igs_step exIv rec min_seq_length d cur adj = d) ∧
    (cl.stop < al.start → min_seq_length ≤ (exIv cl.stop al.start rec).length →
      odictMem d (sanitize an ++ "_" ++ sanitize cn) = true →
      odictMem d (sanitize cn ++ "_" ++ sanitize an) = true →
      fragCount (extract_igs_step exIv rec min_seq_length d cur adj) =
          fragCount d + 1 ∧
        odictGet (extract_igs_step exIv rec min_seq_length d cur adj)
            (sanitize an ++ "_" ++ sanitize cn) =
          odictGet d (sanitize an ++ "_" ++ sanitize cn)) := by
  refine ⟨fun hski => ?_, fun hgap hmin hrev => ?_, fun hgap hmin hrev hfwd => ?_,
    fun hgap hmin hrev hfwd => ?_⟩
  · simp [extract_igs_step, hcn, han, hcl, hal, if_pos hski]
  · have hns : ¬ al.start ≤ cl.stop := not_le.mpr hgap
    by_cases hfwd : odictMem d (sanitize cn ++ "_" ++ sanitize an) = true
    · simp only [extract_igs_step, hcn, han, hcl, hal, if_neg hns, if_pos hmin,
        hfwd, hrev, Bool.true_or, if_true, if_pos]
      refine ⟨fragCount_append _ _ _, ?_⟩
      rw [odictGet_append_self]
      simp
    · have hfwd' : odictMem d (sanitize cn ++ "_" ++ sanitize an) = false := by
        simpa using hfwd
      simp only [extract_igs_step, hcn, han, hcl, hal, if_neg hns, if_pos hmin,
        hfwd', hrev, Bool.or_self, Bool.false_eq_true, if_false]
      refine ⟨fragCount_append _ _ _, ?_⟩
      rw [odictGet_append_self]
      simp
  · have hns : ¬ al.start ≤ cl.stop := not_le.mpr hgap
    simp [extract_igs_step, hcn, han, hcl, hal, if_neg hns, if_pos hmin,
      hrev, hfwd]
  · have hns : ¬ al.start ≤ cl.stop := not_le.mpr hgap
    simp only [extract_igs_step, hcn, han, hcl, hal, if_neg hns, if_pos hmin,
      hrev, hfwd, Bool.true_or, if_true, if_pos]
    exact ⟨fragCount_append _ _ _,
      odictGet_append_ne _ _ _ _ (fun h => hne h.symm)⟩

/-- Witness for C5: the pair `trnA` (ends at 100) / `trnB` (starts at 150)
with an empty collection adds exactly one fragment, under the forward key
`trnA_trnB`; and with the same pair but an overlapping geometry the step is
skipped. -/
theorem C5_witness :
    (fragCount (extract_igs_step c5exIv c5rec 1 [] c5cur c5adj) =
        fragCount ([] : ODict) + 1 ∧
      (⟨"trnA_trnB_NC5", "ACGT"⟩ : SeqRec) ∈
        odictGet (extract_igs_step c5exIv c5rec 1 [] c5cur c5adj) "trnA_trnB") ∧
    extract_igs_step c5exIv c5rec 1 [] c5adj c5cur = [] := by
  constructor
  · have h := (C5_extract_igs_step_one_fragment_per_pair c5exIv c5rec 1 []
      c5cur c5adj ⟨0, 100⟩ ⟨150, 200⟩ "trnA" "trnB" rfl rfl rfl rfl
      (by decide)).2.1 (by decide) (by decide) (by decide)
    exact ⟨h.1, by simpa using h.2⟩
  · exact (C5_extract_igs_step_one_fragment_per_pair c5exIv c5rec 1 []
      c5adj c5cur ⟨150, 200⟩ ⟨0, 100⟩ "trnB" "trnA" rfl rfl rfl rfl
      (by decide)).1 (by decide)

/-! ## The intron extractor's failure behaviour -/

/-- C2 counterexample: a genome record holding one CDS feature with a
three-part location whose first-intron extraction fails makes the whole
`extract_int` record pass raise, contradicting the claim that a
single-feature extraction failure never aborts the whole-record pass. -/
theorem C2_counterexample_first_intron_failure_aborts :
    extract_int c2exL [] [] c2rec = .error () := rfl

theorem parts_simple (l : FeatureLocation) : (Location.simple l).parts = [l] := rfl

theorem extract_int_step_ok_iff
    (exL : FeatureLocation → GenomeRecord → Except String String)
    (rec : GenomeRecord) (d1 d2 : ODict) (f : Feature) :
    isOkE (extract_int_step exL rec d1 d2 f) = true ↔
      abortsOn exL rec f = false := by
  by_cases hty : (f.ftype == "CDS" || f.ftype == "tRNA") = true
  · cases hg : getGene f with
    | none =>
      simp [extract_int_step, hty, hg, isOkE, abortsOn]
    | some gname =>
      by_cases h2 : f.location.parts.length = 2
      · have h2b : (f.location.parts.length == 2) = true := by simpa using h2
        have h3b : (f.location.parts.length == 3) = false := by
          simp only [beq_eq_false_iff_ne]
          omega
        cases hres : exL (intronLoc f 0) rec with
        | ok s =>
          simp [extract_int_step, hty, hg, h2b, h3b, extract_intron_internal,
            hres, parts_simple, isOkE, abortsOn]
        | error e =>
          simp [extract_int_step, hty, hg, h2b, h3b, extract_intron_internal,
            hres, parts_simple, isOkE, abortsOn]
      · have h2b : (f.location.parts.length == 2) = false := by simpa using h2
        by_cases h3 : f.location.parts.length = 3
        · have h3b : (f.location.parts.length == 3) = true := by simpa using h3
          cases hres : exL (intronLoc f 0) rec with
          | ok s =>
            cases hres2 : exL (intronLoc f 1) rec with
            | ok s2 =>
              simp [extract_int_step, hty, hg, h2b, h3b, extract_intron_internal,
                hres, hres2, isOkE, abortsOn]
            | error e2 =>
              simp [extract_int_step, hty, hg, h2b, h3b, extract_intron_internal,
                hres, hres2, isOkE, abortsOn]
          | error e =>
            simp [extract_int_step, hty, hg, h2b, h3b, extract_intron_internal,
              hres, isOkE, abortsOn]
        · have h3b : (f.location.parts.length == 3) = false := by simpa using h3
          simp [extract_int_step, hty, hg, h2b, h3b, isOkE, abortsOn]
  · have hty' : (f.ftype == "CDS" || f.ftype == "tRNA") = false := by
      simpa using hty
    simp [extract_int_step, hty', isOkE, abortsOn]

theorem extract_int_go_ok_iff
    (exL : FeatureLocation → GenomeRecord → Except String String)
    (rec : GenomeRecord) (fs : List Feature) (d1 d2 : ODict) :
    isOkE (extract_int_go exL rec d1 d2 fs) = true ↔
      ∀ f ∈ fs, abortsOn exL rec f = false := by
  induction fs generalizing d1 d2 with
  | nil => simp [extract_int_go, isOkE]
  | cons f rest ih =>
    cases hstep : extract_int_step exL rec d1 d2 f with
    | error e =>
      have habort : abortsOn exL rec f = true := by
        have := (extract_int_step_ok_iff exL rec d1 d2 f)
        rw [hstep] at this
        simp [isOkE] at this
        simpa using this
      simp only [extract_int_go, hstep]
      simp [isOkE, habort]
    | ok v =>
      obtain ⟨d1', d2', f'⟩ := v
      have hok : abortsOn exL rec f = false := by
        have := (extract_int_step_ok_iff exL rec d1 d2 f)
        rw [hstep] at this
        simpa [isOkE] using this
      simp only [extract_int_go, hstep]
      cases hrest : extract_int_go exL rec d1' d2' rest with
      | error e => simp [isOkE, hok, ← ih d1' d2', hrest]
      | ok w =>
        obtain ⟨a, b, l⟩ := w
        simp [isOkE, hok, ← ih d1' d2', hrest]

/-- C2 amended: the intron extractor's record pass survives every
extraction failure on a two-part feature and every second-intron failure on
a three-part feature (those are logged and skipped), but it raises exactly
when some CDS/tRNA feature with a gene qualifier has a three-part location
whose first-intron extraction fails. -/
theorem C2_amended_extract_int_aborts_iff_first_intron_of_three_part_fails
    (exL : FeatureLocation → GenomeRecord → Except String String)
    (d_nucl d_int2 : ODict) (rec : GenomeRecord) :
    isOkE (extract_int exL d_nucl d_int2 rec) = true ↔
      ∀ f ∈ rec.features, abortsOn exL rec f = false := by
  rw [← extract_int_go_ok_iff exL rec rec.features d_nucl d_int2]
  unfold extract_int
  cases h : extract_int_go exL rec d_nucl d_int2 rec.features with
  | error e => simp [isOkE]
  | ok v =>
    obtain ⟨a, b, l⟩ := v
    simp [isOkE]

/-- Witness for C2's amended claim: a record whose only intron-bearing
feature is two-part survives a universally failing extraction call. -/
theorem C2_amended_witness :
    isOkE (extract_int c2exL [] [] c8rec) = true := by
  rw [C2_amended_extract_int_aborts_iff_first_intron_of_three_part_fails]
  decide

/-! ## The intron extractor is not pure over its record -/

/-- C8 counterexample: running `extract_int` on a record holding one
two-part tRNA feature succeeds, but hands back a record whose feature's
location has been overwritten by the computed intron interval, so the
record is not left unchanged. -/
theorem C8_counterexample_extract_int_mutates_record :
    extract_int c8exL [] [] c8rec =
      .ok ([("trnK_intron1", [⟨"trnK_intron1_NC8", "ACGT"⟩])], [], c8recAfter) ∧
    c8recAfter ≠ c8rec := by
  exact ⟨rfl, by decide⟩

theorem extract_int_step_feature (exL : FeatureLocation → GenomeRecord → Except String String)
    (rec : GenomeRecord) (d1 d2 : ODict) (f : Feature) (d1' d2' : ODict) (f' : Feature)
    (h : extract_int_step exL rec d1 d2 f = .ok (d1', d2', f')) :
    f' = intMutate f := by
  by_cases hty : (f.ftype == "CDS" || f.ftype == "tRNA") = true
  · cases hg : getGene f with
    | none =>
      simp only [extract_int_step, hty, hg, if_true] at h
      cases h
      simp [intMutate, hty, hg]
    | some gname =>
      by_cases h2 : f.location.parts.length = 2
      · have h2b : (f.location.parts.length == 2) = true := by simpa using h2
        have hcond : ((f.ftype == "CDS" || f.ftype == "tRNA") && (getGene f).isSome &&
            (f.location.parts.length == 2 || f.location.parts.length == 3)) = true := by
          simp [hty, hg, h2b]
        cases hres : exL (intronLoc f 0) rec with
        | ok s =>
          simp only [extract_int_step, hty, hg, if_true, h2b,
            extract_intron_internal, hres, parts_simple] at h
          simp only [List.length_cons, List.length_nil] at h
          cases h
          simp [intMutate, hcond]
        | error e =>
          simp only [extract_int_step, hty, hg, if_true, h2b,
            extract_intron_internal, hres, parts_simple] at h
          simp only [List.length_cons, List.length_nil] at h
          cases h
          simp [intMutate, hcond]
      · have h2b : (f.location.parts.length == 2) = false := by simpa using h2
        by_cases h3 : f.location.parts.length = 3
        · have h3b : (f.location.parts.length == 3) = true := by simpa using h3
          have hcond : ((f.ftype == "CDS" || f.ftype == "tRNA") && (getGene f).isSome &&
              (f.location.parts.length == 2 || f.location.parts.length == 3)) = true := by
            simp [hty, hg, h3b]
          cases hres : exL (intronLoc f 0) rec with
          | ok s =>
            cases hres2 : exL (intronLoc f 1) rec with
            | ok s2 =>
              simp only [extract_int_step, hty, hg, if_true, h2b,
                extract_intron_internal, hres, hres2, h3b,
                Bool.false_eq_true, if_false] at h
              cases h
              simp [intMutate, hcond]
            | error e2 =>
              simp only [extract_int_step, hty, hg, if_true, h2b,
                extract_intron_internal, hres, hres2, h3b,
                Bool.false_eq_true, if_false] at h
              cases h
              simp [intMutate, hcond]
          | error e =>
            simp only [extract_int_step, hty, hg, if_true, h2b,
              extract_intron_internal, hres, h3b,
              Bool.false_eq_true, if_false] at h
            exact Except.noConfusion h
        · have h3b : (f.location.parts.length == 3) = false := by simpa using h3
          have hcond : ((f.ftype == "CDS" || f.ftype == "tRNA") && (getGene f).isSome &&
              (f.location.parts.length == 2 || f.location.parts.length == 3)) = false := by
            simp [h2b, h3b]
          simp only [extract_int_step, hty, hg, if_true, h2b, h3b,
            Bool.false_eq_true, if_false] at h
          cases h
          simp [intMutate, hcond]
  · have hty' : (f.ftype == "CDS" || f.ftype == "tRNA") = false := by simpa using hty
    simp only [extract_int_step, hty', Bool.false_eq_true, if_false] at h
    cases h
    simp [intMutate, hty']

theorem extract_int_go_features (exL : FeatureLocation → GenomeRecord → Except String String)
    (rec : GenomeRecord) (fs : List Feature) (d1 d2 : ODict)
    (a b : ODict) (fs' : List Feature)
    (h : extract_int_go exL rec d1 d2 fs = .ok (a, b, fs')) :
    fs' = fs.map intMutate := by
  induction fs generalizing d1 d2 a b fs' with
  | nil =>
    simp only [extract_int_go] at h
    cases h
    rfl
  | cons f rest ih =>
    cases hstep : extract_int_step exL rec d1 d2 f with
    | error e => simp [extract_int_go, hstep] at h
    | ok v =>
      obtain ⟨d1', d2', f'⟩ := v
      cases hrest : extract_int_go exL rec d1' d2' rest with
      | error e => simp [extract_int_go, hstep, hrest] at h
      | ok w =>
        obtain ⟨a', b', l⟩ := w
        simp only [extract_int_go, hstep, hrest] at h
        cases h
        rw [List.map_cons]
        exact congrArg₂ _ (extract_int_step_feature exL rec d1 d2 f d1' d2' f' hstep)
          (ih d1' d2' _ _ _ hrest)

/-- C8 amended: the coding-sequence and spacer extractors only read the
record, but the intron extractor is not pure: whenever `extract_int`
completes, the record it hands back has every processed CDS/tRNA feature's
location overwritten with the computed first-intron interval
(`intMutate`), while its name, identifier, and all other features are
unchanged. -/
theorem C8_amended_extract_int_rewrites_processed_locations
    (exL : FeatureLocation → GenomeRecord → Except String String)
    (d_nucl d_int2 : ODict) (rec : GenomeRecord) (a b : ODict)
    (rec' : GenomeRecord)
    (h : extract_int exL d_nucl d_int2 rec = .ok (a, b, rec')) :
    rec'.name = rec.name ∧ rec'.id = rec.id ∧
      rec'.features = rec.features.map intMutate := by
  unfold extract_int at h
  cases hgo : extract_int_go exL rec d_nucl d_int2 rec.features with
  | error e => rw [hgo] at h; cases h
  | ok v =>
    obtain ⟨a2, b2, fs'⟩ := v
    rw [hgo] at h
    cases h
    exact ⟨rfl, rfl, extract_int_go_features exL rec rec.features d_nucl d_int2
      _ _ _ hgo⟩

/-- Witness for C8's amended claim: on the concrete two-part tRNA record the
returned features are exactly the `intMutate` image of the originals. -/
theorem C8_amended_witness :
    c8recAfter.name = c8rec.name ∧ c8recAfter.id = c8rec.id ∧
      c8recAfter.features = c8rec.features.map intMutate := by
  exact C8_amended_extract_int_rewrites_processed_locations c8exL [] [] c8rec
    [("trnK_intron1", [⟨"trnK_intron1_NC8", "ACGT"⟩])] [] c8recAfter rfl

/-! ## Alignment orchestration: failure isolation -/

/-- C3 counterexample: in nucleotide-direct mode a failing aligner
invocation on the first region aborts `multiple_sequence_alignment_nucleotide`
with no region aligned, so the second region (whose aligner call would have
succeeded) is prevented from completing — the failure is not isolated. -/
theorem C3_counterexample_nucleotide_mode_aligner_failure_aborts :
    multiple_sequence_alignment_nucleotide c3mafft c3d =
      .error ("mafft failed", []) := rfl

theorem prot_filterMap_eq_filter (mafft backTr : String → Except String Unit)
    (d : ODict) :
    d.filterMap (fun p =>
        match process_protein_alignment mafft backTr p.1 with
        | .ok true => some p.1
        | .ok false => none
        | .error _ => none) =
      (odictKeys d).filter (fun k => isOkE (mafft k) && isOkE (backTr k)) := by
  induction d with
  | nil => rfl
  | cons p rest ih =>
    obtain ⟨k, v⟩ := p
    cases hm : mafft k with
    | error e =>
      simp [process_protein_alignment, hm, odictKeys, isOkE, ih]
      simpa [odictKeys] using ih
    | ok u =>
      cases hb : backTr k with
      | error e =>
        simp [process_protein_alignment, hm, hb, odictKeys, isOkE]
        simpa [odictKeys] using ih
      | ok u2 =>
        simp [process_protein_alignment, hm, hb, odictKeys, isOkE]
        simpa [odictKeys] using ih

theorem msaNuclGo_error_at_first_failure (mafft : String → Except String Unit)
    (pre post : List String) (k : String) (e : String)
    (hpre : ∀ j ∈ pre, isOkE (mafft j) = true) (hk : mafft k = .error e) :
    msaNuclGo mafft (pre ++ k :: post) = .error (e, pre) := by
  induction pre with
  | nil => simp [msaNuclGo, hk]
  | cons j js ih =>
    have hj : isOkE (mafft j) = true := hpre j (List.mem_cons_self _ _)
    have hjs : ∀ x ∈ js, isOkE (mafft x) = true :=
      fun x hx => hpre x (List.mem_cons_of_mem _ hx)
    cases hmj : mafft j with
    | error e2 => rw [hmj] at hj; simp [isOkE] at hj
    | ok u =>
      have hrec := ih hjs
      simp only [List.cons_append, msaNuclGo, hmj, List.append_eq, hrec]

/-- C3 amended: in protein-guided mode every per-region aligner or
back-translation failure is isolated — the orchestration always completes
(given the helper script) and yields exactly the regions whose two external
calls succeeded; but in nucleotide-direct mode there is no per-region
handler: the first failing aligner invocation aborts the pass, and the
regions after it are never aligned. -/
theorem C3_amended_protein_isolated_nucleotide_aborts :
    (∀ (mafft backTr : String → Except String Unit) (d_prot : ODict),
      conduct_protein_alignment_and_back_translation true mafft backTr d_prot =
        .ok ((odictKeys d_prot).filter
          (fun k => isOkE (mafft k) && isOkE (backTr k)))) ∧
    (∀ (mafft : String → Except String Unit) (pre post : List String)
        (k : String) (e : String),
      (∀ j ∈ pre, isOkE (mafft j) = true) → mafft k = .error e →
      msaNuclGo mafft (pre ++ k :: post) = .error (e, pre)) := by
  constructor
  · intro mafft backTr d_prot
    simp [conduct_protein_alignment_and_back_translation,
      prot_filterMap_eq_filter]
  · exact msaNuclGo_error_at_first_failure

/-- Witness for C3's amended claim: with the helper present, a protein-mode
run over two regions where the back-translation fails on `rpoC1` completes
and keeps exactly `rbcL`; and in nucleotide mode a failure on region `b`
after a successful region `a` aborts with only `a` aligned. -/
theorem C3_witness :
    conduct_protein_alignment_and_back_translation true okCall c3backTr c3dProt =
      .ok ["rbcL"] ∧
    msaNuclGo c3mafftB (["a"] ++ "b" :: ["c"]) = .error ("e", ["a"]) := by
  constructor
  · have h := C3_amended_protein_isolated_nucleotide_aborts.1 okCall c3backTr c3dProt
    rw [h]
    rfl
  · exact C3_amended_protein_isolated_nucleotide_aborts.2 c3mafftB ["a"] ["c"]
      "b" "e" (by decide) rfl

/-! ## Concatenation bookkeeping -/

/-- C6: the region count encoded in the two combined output file names
equals the number of regions whose FASTA-to-NEXUS conversion and subsequent
NEXUS parse both succeeded, for every dictionary of attempted regions, and
the collection step is total (failed regions are merely excluded). -/
theorem C6_concat_count_equals_successful_conversions
    (convert : String → Except String Unit) (parseNx : String → Except String String)
    (d_nucl : ODict) :
    (collect_successful_alignments convert parseNx d_nucl).length =
      ((odictKeys d_nucl).filter
        (fun k => isOkE (convert k) && isOkE (parseNx k))).length ∧
    concat_outfile_names (collect_successful_alignments convert parseNx d_nucl) =
      ("nucl_" ++ toString ((odictKeys d_nucl).filter
          (fun k => isOkE (convert k) && isOkE (parseNx k))).length ++
        "concat.aligned.fasta",
       "nucl_" ++ toString ((odictKeys d_nucl).filter
          (fun k => isOkE (convert k) && isOkE (parseNx k))).length ++
        "concat.aligned.nexus") := by
  have hlen : ∀ ks : List String,
      (ks.filterMap (fun k =>
        match convert k with
        | .error _ => none
        | .ok _ =>
          match parseNx k with
          | .error _ => none
          | .ok a => some (k, a))).length =
      (ks.filter (fun k => isOkE (convert k) && isOkE (parseNx k))).length := by
    intro ks
    induction ks with
    | nil => rfl
    | cons k rest ih =>
      cases hc : convert k with
      | error e => simpa [List.filterMap_cons, List.filter_cons, hc, isOkE] using ih
      | ok u =>
        cases hp : parseNx k with
        | error e =>
          simpa [List.filterMap_cons, List.filter_cons, hc, hp, isOkE] using ih
        | ok a =>
          simpa [List.filterMap_cons, List.filter_cons, hc, hp, isOkE] using ih
  refine ⟨hlen (odictKeys d_nucl), ?_⟩
  simp only [concat_outfile_names, collect_successful_alignments,
    hlen (odictKeys d_nucl)]

/-! ## The per-file extraction loop's emptiness check -/

/-- C7 counterexample: an input whose first file yields zero regions and
whose second file yields one region still makes the extraction pass raise,
contradicting the claim that one productive file at any position suffices. -/
theorem C7_counterexample_abort_despite_later_productive_file :
    parse_infiles_and_extract_annos
      (fun (d : ODict) (x : List (String × List SeqRec)) => d ++ x)
      [[], [("trnH", [⟨"trnH_NC7", "ACGT"⟩])]] = .error () := rfl

theorem parseInfilesGo_ok {α : Type} (step : ODict → α → ODict)
    (fs : List α) (d : ODict) (hd : d ≠ [])
    (hmono : ∀ (d2 : ODict) (x : α), d2 ≠ [] → step d2 x ≠ []) :
    isOkE (parseInfilesGo step d fs) = true := by
  induction fs generalizing d with
  | nil => rfl
  | cons f rest ih =>
    have hne : step d f ≠ [] := hmono d f hd
    have hne2 : (step d f).isEmpty = false := by
      cases hsf : step d f with
      | nil => exact absurd hsf hne
      | cons a b => rfl
    simp only [parseInfilesGo, hne2, Bool.false_eq_true, if_false]
    exact ih _ hne

/-- C7 amended: the extraction pass aborts with the empty-extraction error
as soon as the cumulative collection is empty after a processed file — it
raises whenever the first file yields zero regions, regardless of later
files, and it completes whenever the first file yields at least one region
and no file empties a non-empty collection. -/
theorem C7_amended_abort_iff_empty_after_first_file {α : Type}
    (step : ODict → α → ODict) (f : α) (fs : List α) :
    (step [] f = [] →
      parse_infiles_and_extract_annos step (f :: fs) = .error ()) ∧
    (step [] f ≠ [] → (∀ (d : ODict) (x : α), d ≠ [] → step d x ≠ []) →
      isOkE (parse_infiles_and_extract_annos step (f :: fs)) = true) := by
  constructor
  · intro h
    simp [parse_infiles_and_extract_annos, parseInfilesGo, h]
  · intro h hmono
    have hne2 : (step [] f).isEmpty = false := by
      cases hsf : step [] f with
      | nil => exact absurd hsf h
      | cons a b => rfl
    simp only [parse_infiles_and_extract_annos, parseInfilesGo, hne2,
      Bool.false_eq_true, if_false]
    exact parseInfilesGo_ok step fs _ h hmono

/-- Witness for C7's amended claim: with accumulation by concatenation, a
productive first file followed by an empty file completes without
raising. -/
theorem C7_witness :
    isOkE (parse_infiles_and_extract_annos
      (fun (d : ODict) (x : List (String × List SeqRec)) => d ++ x)
      [[("trnH", [⟨"trnH_NC7", "ACGT"⟩])], []]) = true := by
  exact (C7_amended_abort_iff_empty_after_first_file
      (fun (d : ODict) (x : List (String × List SeqRec)) => d ++ x)
      [("trnH", [⟨"trnH_NC7", "ACGT"⟩])] [[]]).2
    (by decide)
    (fun d x hd => by
      intro hc
      exact hd (List.append_eq_nil.mp hc).1)

end Plastome
